import Mathlib

/-!
Formal model of the RMSD core of this repository.

The Python sources modelled here are `pyrmsd/rmsd.py` (the RMSD operations
`rmsd_dummy`, `rmsd_qcp`, `rmsd_hungarian`, `rmsd_isomorphic`) and
`spyrmsd/graphs/nx.py` (`graph_from_adjacency_matrix`, `match_graphs`).
Coordinates are modelled as exact rationals; the final square root of each
RMSD lives in `ℝ`.  NumPy state effects are made explicit: every RMSD
operation returns, next to its value, the two molecule states as they are
after the call (the in-place `-=` centering of the source writes through to
the caller's coordinate array, and the model reproduces that).

Parts of the repository that the sources call but that are not under `src/`
(`Molecule.center_of_geometry`, `pyrmsd.graph.match_graphs`,
`pyrmsd.hungarian.hungarian_rmsd`, `spyrmsd.parallel.prmsdwrapper`) are
modelled from the specification; each such definition says so in its doc
comment.
-/

/-- A 3D point with exact rational coordinates (models one row of an `(N, 3)`
float array). -/
abbrev Point : Type := ℚ × ℚ × ℚ

/-- Squared Euclidean distance between two points; the per-atom contribution
of `np.sum((c1 - c2) ** 2)`. -/
def distSq (p q : Point) : ℚ :=
  (p.1 - q.1) * (p.1 - q.1) + (p.2.1 - q.2.1) * (p.2.1 - q.2.1) +
    (p.2.2 - q.2.2) * (p.2.2 - q.2.2)

/-- Default point used for out-of-range list reads. -/
def zeroPt : Point := ((0 : ℚ), (0 : ℚ), (0 : ℚ))

/-- A molecule as consumed by `pyrmsd/rmsd.py`: atomic numbers, coordinates,
and the adjacency matrix its graph is built from. -/
structure Mol where
  atomicnums : List ℤ
  coordinates : List Point
  adjacency : List (List ℤ)
deriving DecidableEq

/-- `len(mol)`: the number of atoms of the molecule.
Modelled from the spec: the `Molecule` class is not under `src/`; per the
data model a `CoordinateSet` pairs `N` points with `N` atomic numbers, so
`len` is the length of the atomic-number sequence. -/
def Mol.natoms (mol : Mol) : ℕ := mol.atomicnums.length

/-- Modelled from the spec: `Molecule.center_of_geometry` is not under
`src/`; per the external interface (§6) `centroid()` is the mean of the
coordinate points. -/
def center_of_geometry (mol : Mol) : Point :=
  ((mol.coordinates.map (fun p => p.1)).sum / (mol.coordinates.length : ℚ),
   (mol.coordinates.map (fun p => p.2.1)).sum / (mol.coordinates.length : ℚ),
   (mol.coordinates.map (fun p => p.2.2)).sum / (mol.coordinates.length : ℚ))

/-- Subtract the point `t` from every coordinate (the array content produced
by `c -= t`). -/
def translateBy (c : List Point) (t : Point) : List Point :=
  c.map (fun p => (p.1 - t.1, p.2.1 - t.2.1, p.2.2 - t.2.2))

/-- `np.sum((c1 - c2) ** 2)` over two aligned coordinate arrays. -/
def sumSqDev (c1 c2 : List Point) : ℚ := (List.zipWith distSq c1 c2).sum

/-- The error kinds the modelled operations can raise: a failed `assert`,
the non-isomorphic-graphs `ValueError` (the spec's `GraphMismatch`), and the
spec's `LabelCountMismatch` of the assignment corrector. -/
inductive Err where
  | assertionError
  | graphMismatch
  | labelCountMismatch
deriving DecidableEq

/-- Value projection out of an RMSD operation result. -/
def valueOf (e : Except Err (ℚ × Mol × Mol)) : Option ℚ :=
  match e with
  | .ok r => some r.1
  | .error _ => none

/-- First post-call molecule state out of an RMSD operation result. -/
def post1Of (e : Except Err (ℚ × Mol × Mol)) : Option Mol :=
  match e with
  | .ok r => some r.2.1
  | .error _ => none

/-- Error projection out of an RMSD operation result. -/
def errOf {α : Type} (e : Except Err α) : Option Err :=
  match e with
  | .ok _ => none
  | .error er => some er

/-- `rmsd_dummy` of `pyrmsd/rmsd.py`, with the square root still pending:
the returned rational is the radicand `np.sum((c1 - c2) ** 2) / n`, and the
two returned molecules are the caller's molecules as they are after the
call (with `center=True` the source's `c1 -= mol1.center_of_geometry()`
writes through to `mol1.coordinates`, so the post-call molecule carries the
translated coordinates). A failed `assert` is `Err.assertionError`. -/
def rmsd_dummy_run (mol1 mol2 : Mol) (center : Bool) :
    Except Err (ℚ × Mol × Mol) :=
  if mol1.atomicnums = mol2.atomicnums ∧
      mol1.coordinates.length = mol2.coordinates.length then
    let n : ℕ := mol1.natoms
    let c1 := if center then translateBy mol1.coordinates (center_of_geometry mol1)
              else mol1.coordinates
    let c2 := if center then translateBy mol2.coordinates (center_of_geometry mol2)
              else mol2.coordinates
    let mol1' := { mol1 with coordinates := c1 }
    let mol2' := { mol2 with coordinates := c2 }
    .ok (sumSqDev c1 c2 / (n : ℚ), mol1', mol2')
  else
    .error .assertionError

/-- `rmsd_dummy` with the square root applied: the value the Python function
returns, next to the post-call molecule states. -/
noncomputable def rmsd_dummy (mol1 mol2 : Mol) (center : Bool) :
    Except Err (ℝ × Mol × Mol) :=
  (rmsd_dummy_run mol1 mol2 center).map
    (fun r => (Real.sqrt ((r.1 : ℚ) : ℝ), r.2.1, r.2.2))

/-- A one-carbon molecule sitting away from the origin; centering moves it. -/
def molC : Mol := ⟨[6], [((3 : ℚ), (0 : ℚ), (0 : ℚ))], [[0]]⟩

lemma sumSqDev_eq_sum_range (n : ℕ) :
    ∀ c1 c2 : List Point, c1.length = n → c2.length = n →
      sumSqDev c1 c2 =
        ∑ i ∈ Finset.range n, distSq (c1.getD i zeroPt) (c2.getD i zeroPt) := by
  induction n with
  | zero =>
    intro c1 c2 h1 h2
    simp [List.length_eq_zero.mp h1, sumSqDev]
  | succ m ih =>
    intro c1 c2 h1 h2
    match c1, c2 with
    | [], _ => simp at h1
    | _ :: _, [] => simp at h2
    | p :: t1, q :: t2 =>
      have ht1 : t1.length = m := by simpa using h1
      have ht2 : t2.length = m := by simpa using h2
      rw [Finset.sum_range_succ']
      have hrec := ih t1 t2 ht1 ht2
      simp only [sumSqDev, List.zipWith_cons_cons, List.sum_cons] at *
      rw [hrec]
      simp [add_comm]

lemma rmsd_dummy_run_nocenter (mol1 mol2 : Mol)
    (hA : mol1.atomicnums = mol2.atomicnums)
    (hS : mol1.coordinates.length = mol2.coordinates.length) :
    rmsd_dummy_run mol1 mol2 false =
      .ok (sumSqDev mol1.coordinates mol2.coordinates / (mol1.natoms : ℚ),
        mol1, mol2) := by
  unfold rmsd_dummy_run
  rw [if_pos ⟨hA, hS⟩]
  rfl

/-- Claim C7: with equal atomic-number sequences and equal coordinate-array
shapes of `N ≥ 1` atoms, `rmsd_dummy` with `center=False` returns exactly
`sqrt((1/N) * Σᵢ dist²(c1ᵢ, c2ᵢ))`, and both molecules come back unchanged. -/
theorem rmsd_dummy_formula (mol1 mol2 : Mol)
    (hA : mol1.atomicnums = mol2.atomicnums)
    (hS : mol1.coordinates.length = mol2.coordinates.length)
    (hw : mol1.coordinates.length = mol1.atomicnums.length)
    (hn : 0 < mol1.natoms) :
    rmsd_dummy mol1 mol2 false =
      .ok (Real.sqrt ((1 / (mol1.natoms : ℝ)) *
        ∑ i ∈ Finset.range mol1.natoms,
          ((distSq (mol1.coordinates.getD i zeroPt)
              (mol2.coordinates.getD i zeroPt) : ℚ) : ℝ)), mol1, mol2) := by
  have hc1 : mol1.coordinates.length = mol1.natoms := hw
  have hc2 : mol2.coordinates.length = mol1.natoms := by rw [← hS]; exact hw
  have hsum := sumSqDev_eq_sum_range mol1.natoms mol1.coordinates
    mol2.coordinates hc1 hc2
  have hpos := hn
  unfold rmsd_dummy
  rw [rmsd_dummy_run_nocenter mol1 mol2 hA hS]
  simp only [Except.map]
  congr 2
  rw [hsum]
  push_cast
  ring_nf

/-- Witness for C7 at a concrete one-atom input. -/
theorem rmsd_dummy_formula_witness :
    (molC.atomicnums = molC.atomicnums ∧
      molC.coordinates.length = molC.coordinates.length ∧
      molC.coordinates.length = molC.atomicnums.length ∧
      0 < molC.natoms) ∧
    rmsd_dummy molC molC false =
      .ok (Real.sqrt ((1 / (molC.natoms : ℝ)) *
        ∑ i ∈ Finset.range molC.natoms,
          ((distSq (molC.coordinates.getD i zeroPt)
              (molC.coordinates.getD i zeroPt) : ℚ) : ℝ)), molC, molC) :=
  ⟨⟨rfl, rfl, by norm_num [molC], by norm_num [molC, Mol.natoms]⟩,
    rmsd_dummy_formula molC molC rfl rfl (by norm_num [molC])
      (by norm_num [molC, Mol.natoms])⟩

/-- Claim C2 (refuting evaluation): calling `rmsd_dummy` with `center=True`
on a one-carbon molecule at `(3,0,0)` hands back a post-call molecule whose
coordinate array has been translated to `(0,0,0)` — the caller's array has
been mutated in place by `c1 -= mol1.center_of_geometry()`, so the
coordinates are not left unchanged by the call. -/
theorem rmsd_dummy_center_mutates :
    post1Of (rmsd_dummy_run molC molC true) =
      some ⟨[6], [((0 : ℚ), (0 : ℚ), (0 : ℚ))], [[0]]⟩ ∧
    molC.coordinates = [((3 : ℚ), (0 : ℚ), (0 : ℚ))] ∧
    (⟨[6], [((0 : ℚ), (0 : ℚ), (0 : ℚ))], [[0]]⟩ : Mol).coordinates ≠
      molC.coordinates := by
  refine ⟨?_, rfl, by norm_num [molC, Prod.ext_iff]⟩
  norm_num [post1Of, rmsd_dummy_run, molC, Mol.natoms, sumSqDev, distSq,
    translateBy, center_of_geometry]

/-- A NetworkX-style graph as used by `spyrmsd/graphs/nx.py`: vertices
`0 .. n-1`, a Boolean adjacency predicate, and the `"atomicnum"` node
attributes as the key-value list of a Python dict. -/
structure Graph where
  n : ℕ
  adj : ℕ → ℕ → Bool
  atomicnum : List (ℕ × ℤ)

/-- Entry `(i, j)` of an adjacency matrix, `0` outside the matrix. -/
def matEntry (A : List (List ℤ)) (i j : ℕ) : ℤ := (A.getD i []).getD j 0

/-- `graph_from_adjacency_matrix` of `spyrmsd/graphs/nx.py`: `nx.Graph(A)`
has nodes `0 .. n-1` (`n` = number of rows) and an edge where the matrix
entry is non-zero; when atomic numbers are passed, they become `"atomicnum"`
node attributes via a dict built with `enumerate`, and
`nx.set_node_attributes` silently ignores dict keys that are not nodes. -/
def graph_from_adjacency_matrix (A : List (List ℤ))
    (atomicnums : Option (List ℤ)) : Graph :=
  { n := A.length
    adj := fun i j => matEntry A i j != 0
    atomicnum :=
      match atomicnums with
      | none => []
      | some l => l.enum.filter (fun p => decide (p.1 < A.length)) }

/-- The `"atomicnum"` attribute of vertex `i`, when present. -/
def labelOf (G : Graph) (i : ℕ) : Option ℤ := G.atomicnum.lookup i

/-- `Molecule.to_graph` — Modelled from the spec: the `Molecule` class is
not under `src/`; per §6 it exposes its labeled graph, built here from the
molecule's adjacency matrix and atomic numbers with the repository's
`graph_from_adjacency_matrix`. -/
def Mol.to_graph (mol : Mol) : Graph :=
  graph_from_adjacency_matrix mol.adjacency (some mol.atomicnums)

lemma lookup_enumFrom (l : List ℤ) :
    ∀ k i : ℕ, (List.enumFrom k l).lookup i =
      if k ≤ i ∧ i < k + l.length then some (l.getD (i - k) 0) else none := by
  induction l with
  | nil =>
    intro k i
    simp only [List.enumFrom, List.lookup, List.length_nil]
    rw [if_neg (by omega)]
  | cons a t ih =>
    intro k i
    simp only [List.enumFrom, List.lookup, List.length_cons]
    by_cases hik : i = k
    · subst hik
      simp only [beq_self_eq_true]
      rw [if_pos (by omega)]
      simp
    · have hbeq : (i == k) = false := beq_false_of_ne hik
      rw [hbeq]
      simp only [Bool.false_eq_true, if_false]
      rw [ih (k + 1) i]
      by_cases hle : k + 1 ≤ i ∧ i < k + 1 + t.length
      · rw [if_pos hle, if_pos (by omega)]
        have : i - k = (i - (k + 1)) + 1 := by omega
        rw [this, List.getD_cons_succ]
      · rw [if_neg hle, if_neg (by omega)]

lemma filter_enumFrom_lt (l : List ℤ) :
    ∀ k n : ℕ, (List.enumFrom k l).filter (fun p => decide (p.1 < n)) =
      List.enumFrom k (l.take (n - k)) := by
  induction l with
  | nil => intro k n; simp [List.enumFrom]
  | cons a t ih =>
    intro k n
    simp only [List.enumFrom, List.filter_cons]
    by_cases hk : k < n
    · rw [if_pos (by simpa using hk), ih (k + 1) n]
      have : n - k = (n - (k + 1)) + 1 := by omega
      rw [this, List.take_succ_cons, List.enumFrom]
    · rw [if_neg (by simpa using hk), ih (k + 1) n]
      have h1 : n - (k + 1) = 0 := by omega
      have h2 : n - k = 0 := by omega
      rw [h1, h2]
      simp [List.enumFrom]

lemma labelOf_gfam (A : List (List ℤ)) (nums : List ℤ) (i : ℕ) :
    labelOf (graph_from_adjacency_matrix A (some nums)) i =
      if i < A.length ∧ i < nums.length then some (nums.getD i 0) else none := by
  have henum : nums.enum = List.enumFrom 0 nums := rfl
  simp only [labelOf, graph_from_adjacency_matrix, henum]
  rw [filter_enumFrom_lt nums 0 A.length, lookup_enumFrom]
  simp only [Nat.zero_le, true_and, Nat.zero_add, Nat.sub_zero,
    List.length_take]
  by_cases h : i < A.length ∧ i < nums.length
  · rw [if_pos (by omega), if_pos h]
    congr 1
    rw [List.getD_eq_getElem _ _ (by simp; omega),
      List.getD_eq_getElem _ _ (by omega)]
    exact List.getElem_take _
  · rw [if_neg (by omega), if_neg h]

/-- Claim C10 (amended form): with an atomic-number sequence supplied,
vertex `i` of the returned graph carries the `"atomicnum"` attribute equal
to the `i`-th atomic number for every vertex `i` that the sequence covers
(`i < min(n, len(atomicnums))`); a vertex beyond the end of the sequence
carries no attribute, an index beyond the vertex count stores none, and
with the argument omitted no attributes are stored at all. -/
theorem graph_from_adjacency_matrix_labels (A : List (List ℤ))
    (nums : List ℤ) :
    (∀ i, i < A.length → i < nums.length →
      labelOf (graph_from_adjacency_matrix A (some nums)) i =
        some (nums.getD i 0)) ∧
    (∀ i, nums.length ≤ i →
      labelOf (graph_from_adjacency_matrix A (some nums)) i = none) ∧
    (∀ i, A.length ≤ i →
      labelOf (graph_from_adjacency_matrix A (some nums)) i = none) ∧
    (graph_from_adjacency_matrix A none).atomicnum = [] := by
  refine ⟨fun i h1 h2 => ?_, fun i h => ?_, fun i h => ?_, rfl⟩
  · rw [labelOf_gfam, if_pos ⟨h1, h2⟩]
  · rw [labelOf_gfam, if_neg (by omega)]
  · rw [labelOf_gfam, if_neg (by omega)]

/-- Witness for C10 at a concrete input: a 2-vertex graph with both atomic
numbers supplied, and the same graph with the argument omitted. -/
theorem graph_from_adjacency_matrix_labels_witness :
    ((0 : ℕ) < 2 ∧ (0 : ℕ) < 2 ∧ (2 : ℕ) ≤ 2 ∧ (2 : ℕ) ≤ 3) ∧
    labelOf (graph_from_adjacency_matrix [[0, 1], [1, 0]] (some [6, 8])) 0 =
      some 6 ∧
    labelOf (graph_from_adjacency_matrix [[0, 1], [1, 0]] (some [6, 8])) 2 =
      none ∧
    labelOf (graph_from_adjacency_matrix [[0, 1], [1, 0]] (some [6, 8])) 3 =
      none ∧
    (graph_from_adjacency_matrix [[0, 1], [1, 0]] none).atomicnum = [] := by
  have h := graph_from_adjacency_matrix_labels [[0, 1], [1, 0]] [6, 8]
  exact ⟨⟨by decide, by decide, by decide, by decide⟩,
    by simpa using h.1 0 (by decide) (by decide),
    h.2.1 2 (by decide), h.2.2.1 3 (by decide), h.2.2.2⟩

/-- Claim C10 (refuting evaluation): with a 2-vertex adjacency matrix and
the one-element atomic-number list `[6]`, vertex `1` of the returned graph
carries no `"atomicnum"` attribute, so it is not the case that every vertex
carries the attribute equal to its atomic number. -/
theorem graph_from_adjacency_matrix_short_labels :
    labelOf (graph_from_adjacency_matrix [[0, 0], [0, 0]] (some [6])) 1 =
      none ∧
    (graph_from_adjacency_matrix [[0, 0], [0, 0]] (some [6])).n = 2 := by
  decide

/-- `match_graphs` performs node matching exactly when both graphs carry
`"atomicnum"` data (`nx.get_node_attributes(G, "atomicnum") == dict()` is the
emptiness test of the source, lines 66-80). -/
def nodeMatchRequired (G1 G2 : Graph) : Bool :=
  !(G1.atomicnum.isEmpty || G2.atomicnum.isEmpty)

/-- A candidate vertex mapping `σ` (vertex `i` of `G1` ↦ vertex `σ[i]` of
`G2`) preserves adjacency, and node labels when node matching is active. -/
def IsMappingOK (G1 G2 : Graph) (useLabels : Bool) (σ : List ℕ) : Prop :=
  (∀ i < G1.n, ∀ j < G1.n, G1.adj i j = G2.adj (σ.getD i 0) (σ.getD j 0)) ∧
  (useLabels = true → ∀ i < G1.n, labelOf G1 i = labelOf G2 (σ.getD i 0))

instance (G1 G2 : Graph) (u : Bool) (σ : List ℕ) :
    Decidable (IsMappingOK G1 G2 u σ) := by
  unfold IsMappingOK; infer_instance

/-- All isomorphism mappings between `G1` and `G2`, in enumeration order
(VF2's lazy `isomorphisms_iter` modelled as a filter over all vertex
permutations; the first element corresponds to the first isomorphism VF2
reports after `is_isomorphic`). -/
def isoMappings (G1 G2 : Graph) (useLabels : Bool) : List (List ℕ) :=
  if G1.n = G2.n then
    (List.range G1.n).permutations'.filter
      (fun σ => decide (IsMappingOK G1 G2 useLabels σ))
  else []

/-- Result of `match_graphs`: whether `warnings.warn` fired, and either the
list of all isomorphism mappings — each a pair of index sequences, keys and
values of the isomorphism dict — or the `ValueError`. -/
structure MatchResult where
  warned : Bool
  result : Except Err (List (List ℕ × List ℕ))

/-- `match_graphs` of `spyrmsd/graphs/nx.py`: warn (and drop node matching)
when either graph lacks `"atomicnum"` data, raise `ValueError` when the
graphs are not isomorphic, and otherwise return all isomorphism mappings as
(keys, values) pairs. -/
def match_graphs (G1 G2 : Graph) : MatchResult :=
  match isoMappings G1 G2 (nodeMatchRequired G1 G2) with
  | [] => ⟨!nodeMatchRequired G1 G2, .error .graphMismatch⟩
  | isos => ⟨!nodeMatchRequired G1 G2,
      .ok (isos.map (fun σ => (List.range G1.n, σ)))⟩

/-- `G1` and `G2` are isomorphic under the given node-compatibility choice:
some injective vertex correspondence of the `n` vertices preserves adjacency
both ways, and labels when `useLabels` is set. -/
def Isomorphic (G1 G2 : Graph) (useLabels : Bool) : Prop :=
  G1.n = G2.n ∧ ∃ f : ℕ → ℕ,
    (∀ i < G1.n, f i < G2.n) ∧
    (∀ i < G1.n, ∀ j < G1.n, f i = f j → i = j) ∧
    (∀ i < G1.n, ∀ j < G1.n, G1.adj i j = G2.adj (f i) (f j)) ∧
    (useLabels = true → ∀ i < G1.n, labelOf G1 i = labelOf G2 (f i))

/-- The graph's labels are total or absent: this is the spec's
`LabeledGraph` (every vertex labeled) or the degraded unlabeled case. The
source's `match_atomicnum` reads `node["atomicnum"]` unconditionally, so
graphs with partially labeled vertices are outside its domain. -/
def wfLabels (G : Graph) : Prop :=
  G.atomicnum = [] ∨ ∀ i < G.n, (labelOf G i).isSome = true

instance (G : Graph) : Decidable (wfLabels G) := by
  unfold wfLabels; infer_instance

lemma perm_range_length {σ : List ℕ} {n : ℕ} (h : σ.Perm (List.range n)) :
    σ.length = n := by
  simpa using h.length_eq

lemma perm_range_getD_lt {σ : List ℕ} {n i : ℕ} (h : σ.Perm (List.range n))
    (hi : i < n) : σ.getD i 0 < n := by
  have hl : σ.length = n := perm_range_length h
  have hmem : σ.getD i 0 ∈ σ := by
    rw [List.getD_eq_getElem _ _ (by omega)]
    exact List.getElem_mem _
  exact List.mem_range.mp (h.mem_iff.mp hmem)

lemma perm_range_getD_inj {σ : List ℕ} {n : ℕ} (h : σ.Perm (List.range n))
    {i j : ℕ} (hi : i < n) (hj : j < n)
    (heq : σ.getD i 0 = σ.getD j 0) : i = j := by
  have hl : σ.length = n := perm_range_length h
  have hnd : σ.Nodup := (h.nodup_iff).mpr (List.nodup_range n)
  have hi' : i < σ.length := by omega
  have hj' : j < σ.length := by omega
  rw [List.getD_eq_getElem _ _ hi', List.getD_eq_getElem _ _ hj'] at heq
  exact (hnd.getElem_inj_iff).mp heq

lemma map_range_perm {n : ℕ} {f : ℕ → ℕ}
    (hlt : ∀ i < n, f i < n)
    (hinj : ∀ i < n, ∀ j < n, f i = f j → i = j) :
    ((List.range n).map f).Perm (List.range n) := by
  have hnd : ((List.range n).map f).Nodup :=
    (List.nodup_range n).map_on
      (fun x hx y hy hf =>
        hinj x (List.mem_range.mp hx) y (List.mem_range.mp hy) hf)
  have hsub : ((List.range n).map f) ⊆ List.range n := by
    intro x hx
    obtain ⟨i, hi, rfl⟩ := List.mem_map.mp hx
    exact List.mem_range.mpr (hlt i (List.mem_range.mp hi))
  exact (hnd.subperm hsub).perm_of_length_le (by simp)

lemma map_range_getD {n i : ℕ} {f : ℕ → ℕ} (hi : i < n) :
    ((List.range n).map f).getD i 0 = f i := by
  rw [List.getD_eq_getElem _ _ (by simpa using hi)]
  simp

lemma mem_isoMappings {G1 G2 : Graph} {u : Bool} {σ : List ℕ} :
    σ ∈ isoMappings G1 G2 u ↔
      G1.n = G2.n ∧ σ.Perm (List.range G1.n) ∧ IsMappingOK G1 G2 u σ := by
  unfold isoMappings
  by_cases h : G1.n = G2.n
  · rw [if_pos h]
    simp [List.mem_filter, List.mem_permutations', h, and_comm]
  · rw [if_neg h]
    simp [h]

lemma isomorphic_iff_ne_nil {G1 G2 : Graph} {u : Bool} :
    Isomorphic G1 G2 u ↔ isoMappings G1 G2 u ≠ [] := by
  constructor
  · rintro ⟨hn, f, hlt, hinj, hadj, hlab⟩
    have hlt' : ∀ i < G1.n, f i < G1.n := by
      intro i hi; rw [hn]; exact hlt i hi
    have hperm := map_range_perm hlt' hinj
    apply List.ne_nil_of_mem (a := (List.range G1.n).map f)
    rw [mem_isoMappings]
    refine ⟨hn, hperm, ⟨fun i hi j hj => ?_, fun hu i hi => ?_⟩⟩
    · rw [map_range_getD hi, map_range_getD hj]
      exact hadj i hi j hj
    · rw [map_range_getD hi]
      exact hlab hu i hi
  · intro hne
    obtain ⟨σ, hσ⟩ := List.exists_mem_of_ne_nil _ hne
    rw [mem_isoMappings] at hσ
    obtain ⟨hn, hperm, hadj, hlab⟩ := hσ
    refine ⟨hn, fun i => σ.getD i 0, fun i hi => ?_, ?_, hadj, hlab⟩
    · rw [← hn]; exact perm_range_getD_lt hperm hi
    · exact fun i hi j hj => perm_range_getD_inj hperm hi hj

lemma match_graphs_warned_eq (G1 G2 : Graph) :
    (match_graphs G1 G2).warned = !(nodeMatchRequired G1 G2) := by
  unfold match_graphs
  cases isoMappings G1 G2 (nodeMatchRequired G1 G2) <;> rfl

lemma match_graphs_error_iff (G1 G2 : Graph) :
    (match_graphs G1 G2).result = .error .graphMismatch ↔
      isoMappings G1 G2 (nodeMatchRequired G1 G2) = [] := by
  unfold match_graphs
  cases isoMappings G1 G2 (nodeMatchRequired G1 G2) <;> simp

lemma match_graphs_ok_iff (G1 G2 : Graph) (l : List (List ℕ × List ℕ)) :
    (match_graphs G1 G2).result = .ok l ↔
      isoMappings G1 G2 (nodeMatchRequired G1 G2) ≠ [] ∧
      l = (isoMappings G1 G2 (nodeMatchRequired G1 G2)).map
        (fun σ => (List.range G1.n, σ)) := by
  unfold match_graphs
  cases isoMappings G1 G2 (nodeMatchRequired G1 G2) with
  | nil => simp
  | cons a t => simp [eq_comm]

/-- Claim C5: `match_graphs` raises an error exactly when the two graphs
are not isomorphic under the applicable node-compatibility predicate
(label equality when both graphs are labeled); when they are isomorphic it
returns the collection of all isomorphism mappings, each one a pair of
index sequences aligning the vertices of `G1` with the vertices of `G2`.
The hypotheses restrict to graphs whose labels are total or absent — the
spec's `LabeledGraph` shape, outside of which the source's
`match_atomicnum` would fail on a missing key. -/
theorem match_graphs_spec (G1 G2 : Graph)
    (h1 : wfLabels G1) (h2 : wfLabels G2) :
    ((match_graphs G1 G2).result = .error .graphMismatch ↔
      ¬ Isomorphic G1 G2 (nodeMatchRequired G1 G2)) ∧
    ∀ l, (match_graphs G1 G2).result = .ok l →
      (∀ σ : List ℕ, (List.range G1.n, σ) ∈ l ↔
        (σ.Perm (List.range G1.n) ∧ G1.n = G2.n ∧
          IsMappingOK G1 G2 (nodeMatchRequired G1 G2) σ)) ∧
      ∀ p ∈ l, p.1 = List.range G1.n := by
  constructor
  · rw [match_graphs_error_iff, isomorphic_iff_ne_nil]
    exact not_not.symm
  · intro l hok
    rw [match_graphs_ok_iff] at hok
    obtain ⟨hne, rfl⟩ := hok
    constructor
    · intro σ
      rw [List.mem_map]
      constructor
      · rintro ⟨a, ha, heq⟩
        have haσ : a = σ := by simpa using congrArg Prod.snd heq
        subst haσ
        have hm := mem_isoMappings.mp ha
        exact ⟨hm.2.1, hm.1, hm.2.2⟩
      · rintro ⟨hperm, hn, hok'⟩
        exact ⟨σ, mem_isoMappings.mpr ⟨hn, hperm, hok'⟩, rfl⟩
    · rintro p hp
      obtain ⟨a, _, rfl⟩ := List.mem_map.mp hp
      rfl

/-- The adjacency matrix of the 3-atom path molecule. -/
def pathAdj : List (List ℤ) := [[0, 1, 0], [1, 0, 1], [0, 1, 0]]

/-- A 3-carbon path molecule laid out along the x axis. -/
def molP1 : Mol :=
  ⟨[6, 6, 6],
   [((0 : ℚ), (0 : ℚ), (0 : ℚ)), ((1 : ℚ), (0 : ℚ), (0 : ℚ)),
    ((2 : ℚ), (0 : ℚ), (0 : ℚ))], pathAdj⟩

/-- The same path molecule with the coordinates listed in reverse order. -/
def molP2 : Mol :=
  ⟨[6, 6, 6],
   [((2 : ℚ), (0 : ℚ), (0 : ℚ)), ((1 : ℚ), (0 : ℚ), (0 : ℚ)),
    ((0 : ℚ), (0 : ℚ), (0 : ℚ))], pathAdj⟩

/-- Witness for C5 at two concrete labeled path graphs. -/
theorem match_graphs_spec_witness :
    (wfLabels molP1.to_graph ∧ wfLabels molP2.to_graph) ∧
    (((match_graphs molP1.to_graph molP2.to_graph).result =
        .error .graphMismatch ↔
      ¬ Isomorphic molP1.to_graph molP2.to_graph
        (nodeMatchRequired molP1.to_graph molP2.to_graph)) ∧
    ∀ l, (match_graphs molP1.to_graph molP2.to_graph).result = .ok l →
      (∀ σ : List ℕ, (List.range molP1.to_graph.n, σ) ∈ l ↔
        (σ.Perm (List.range molP1.to_graph.n) ∧
          molP1.to_graph.n = molP2.to_graph.n ∧
          IsMappingOK molP1.to_graph molP2.to_graph
            (nodeMatchRequired molP1.to_graph molP2.to_graph) σ)) ∧
      ∀ p ∈ l, p.1 = List.range molP1.to_graph.n) :=
  ⟨⟨by decide, by decide⟩, match_graphs_spec _ _ (by decide) (by decide)⟩

/-- Claim C9 (amended form): when either graph carries no atomic-number
data, `match_graphs` warns and degrades to structure-only isomorphism —
the missing labels themselves never cause a failure, and the call succeeds
exactly when the graphs are structurally isomorphic (it still raises
`GraphMismatch` when they are not). -/
theorem match_graphs_unlabeled (G1 G2 : Graph)
    (h : G1.atomicnum = [] ∨ G2.atomicnum = []) :
    (match_graphs G1 G2).warned = true ∧
    ((∃ l, (match_graphs G1 G2).result = .ok l) ↔ Isomorphic G1 G2 false) := by
  have hu : nodeMatchRequired G1 G2 = false := by
    unfold nodeMatchRequired
    rcases h with h | h <;> simp [h]
  constructor
  · rw [match_graphs_warned_eq, hu]; rfl
  · rw [isomorphic_iff_ne_nil (u := false), ← hu]
    constructor
    · rintro ⟨l, hl⟩
      exact ((match_graphs_ok_iff G1 G2 l).mp hl).1
    · intro hne
      exact ⟨_, (match_graphs_ok_iff G1 G2 _).mpr ⟨hne, rfl⟩⟩

/-- Witness for C9: two structurally isomorphic single-vertex graphs with
no labels — the call warns and succeeds. -/
theorem match_graphs_unlabeled_witness :
    ((graph_from_adjacency_matrix [[0]] none).atomicnum = [] ∨
      (graph_from_adjacency_matrix [[0]] none).atomicnum = []) ∧
    (match_graphs (graph_from_adjacency_matrix [[0]] none)
        (graph_from_adjacency_matrix [[0]] none)).warned = true ∧
    ((∃ l, (match_graphs (graph_from_adjacency_matrix [[0]] none)
        (graph_from_adjacency_matrix [[0]] none)).result = .ok l) ↔
      Isomorphic (graph_from_adjacency_matrix [[0]] none)
        (graph_from_adjacency_matrix [[0]] none) false) :=
  ⟨Or.inl rfl,
    match_graphs_unlabeled (graph_from_adjacency_matrix [[0]] none)
      (graph_from_adjacency_matrix [[0]] none) (Or.inl rfl)⟩

/-- A one-vertex graph with no atomic-number data. -/
def gU1 : Graph := graph_from_adjacency_matrix [[0]] none

/-- A two-vertex graph with no atomic-number data. -/
def gU2 : Graph := graph_from_adjacency_matrix [[0, 1], [1, 0]] none

/-- Claim C9 (refuting evaluation): both graphs are label-free, yet
`match_graphs` raises `GraphMismatch` because they are not structurally
isomorphic — so "the graph-matching operation does not fail" is not true of
every pair with missing labels; the warning fires regardless. -/
theorem match_graphs_unlabeled_can_fail :
    (gU1.atomicnum = [] ∨ gU2.atomicnum = []) ∧
    errOf (match_graphs gU1 gU2).result = some .graphMismatch ∧
    (match_graphs gU1 gU2).warned = true := by
  refine ⟨Or.inl rfl, ?_, ?_⟩ <;> decide

/-- NumPy fancy indexing `c[idxs, :]`. -/
def selectIdx (idxs : List ℕ) (c : List Point) : List Point :=
  idxs.map (fun v => c.getD v zeroPt)

/-- `pyrmsd.graph.match_graphs` — Modelled from the spec: that module is
not under `src/`. Per §4.2 the matcher checks `is_isomorphic` and exposes a
lazy sequence of isomorphism mappings; `rmsd_isomorphic` consumes a single
mapping dict (`mapping.keys()` / `mapping.values()`), i.e. the first
delivered mapping, and a non-isomorphic pair fails with `GraphMismatch`. -/
def match_graphs_first (G1 G2 : Graph) : Except Err (List ℕ) :=
  match isoMappings G1 G2 (nodeMatchRequired G1 G2) with
  | [] => .error .graphMismatch
  | σ :: _ => .ok σ

/-- `rmsd_isomorphic` of `pyrmsd/rmsd.py`, radicand form: after the shape
asserts and the optional in-place centering, build both graphs, obtain the
single isomorphism mapping, permute `c1` by the mapping's keys and `c2` by
its values, and apply the dummy RMSD formula. The mapping dict pairs key
`i` with value `σ[i]`; since the radicand sums over the pairs, the common
reordering of keys and values drops out and the keys are modelled in
vertex order `0 .. n-1`. -/
def rmsd_isomorphic_run (mol1 mol2 : Mol) (center : Bool) :
    Except Err (ℚ × Mol × Mol) :=
  if mol1.atomicnums.length = mol2.atomicnums.length ∧
      mol1.coordinates.length = mol2.coordinates.length then
    let n : ℕ := mol1.natoms
    let c1 := if center then translateBy mol1.coordinates (center_of_geometry mol1)
              else mol1.coordinates
    let c2 := if center then translateBy mol2.coordinates (center_of_geometry mol2)
              else mol2.coordinates
    let mol1' := { mol1 with coordinates := c1 }
    let mol2' := { mol2 with coordinates := c2 }
    match match_graphs_first mol1'.to_graph mol2'.to_graph with
    | .error e => .error e
    | .ok σ =>
        .ok (sumSqDev (selectIdx (List.range mol1'.to_graph.n) c1)
          (selectIdx σ c2) / (n : ℚ), mol1', mol2')
  else
    .error .assertionError

/-- `rmsd_isomorphic` with the square root applied. -/
noncomputable def rmsd_isomorphic (mol1 mol2 : Mol) (center : Bool) :
    Except Err (ℝ × Mol × Mol) :=
  (rmsd_isomorphic_run mol1 mol2 center).map
    (fun r => (Real.sqrt ((r.1 : ℚ) : ℝ), r.2.1, r.2.2))

/-- The candidate radicand of one isomorphism mapping `σ`: the dummy RMSD
formula applied after permuting the two coordinate sets by the mapping
(spec §4.3 step 4, with rotation minimization off). -/
def candMSD (mol1 mol2 : Mol) (σ : List ℕ) : ℚ :=
  sumSqDev (selectIdx (List.range mol1.to_graph.n) mol1.coordinates)
    (selectIdx σ mol2.coordinates) / (mol1.natoms : ℚ)

lemma rmsd_isomorphic_run_nocenter (mol1 mol2 : Mol)
    (hA : mol1.atomicnums.length = mol2.atomicnums.length)
    (hS : mol1.coordinates.length = mol2.coordinates.length) :
    rmsd_isomorphic_run mol1 mol2 false =
      match match_graphs_first mol1.to_graph mol2.to_graph with
      | .error e => .error e
      | .ok σ => .ok (candMSD mol1 mol2 σ, mol1, mol2) := by
  unfold rmsd_isomorphic_run
  rw [if_pos ⟨hA, hS⟩]
  rfl

/-- Minimum of a list of rationals (`none` for the empty list). -/
def listMin : List ℚ → Option ℚ
  | [] => none
  | a :: l => some (l.foldl min a)

lemma foldl_min_le_init (l : List ℚ) : ∀ a : ℚ, l.foldl min a ≤ a := by
  induction l with
  | nil => intro a; exact le_refl a
  | cons b t ih =>
    intro a
    calc t.foldl min (min a b) ≤ min a b := ih (min a b)
    _ ≤ a := min_le_left a b

lemma foldl_min_le_mem {l : List ℚ} {b : ℚ} (hb : b ∈ l) :
    ∀ a : ℚ, l.foldl min a ≤ b := by
  induction l with
  | nil => cases hb
  | cons c t ih =>
    intro a
    rcases List.mem_cons.mp hb with h | h
    · subst h
      calc t.foldl min (min a b) ≤ min a b := foldl_min_le_init t _
      _ ≤ b := min_le_right a b
    · exact ih h (min a c)

lemma foldl_min_mem (l : List ℚ) : ∀ a : ℚ,
    l.foldl min a = a ∨ l.foldl min a ∈ l := by
  induction l with
  | nil => intro a; exact Or.inl rfl
  | cons b t ih =>
    intro a
    rcases ih (min a b) with h | h
    · rcases min_choice a b with hm | hm
      · exact Or.inl (by rw [List.foldl_cons, h, hm])
      · exact Or.inr (by rw [List.foldl_cons, h, hm]; exact List.mem_cons_self b t)
    · exact Or.inr (List.mem_cons_of_mem b h)

lemma listMin_le {l : List ℚ} {x : ℚ} (hx : x ∈ l) :
    ∃ m, listMin l = some m ∧ m ≤ x := by
  cases l with
  | nil => cases hx
  | cons a t =>
    refine ⟨t.foldl min a, rfl, ?_⟩
    rcases List.mem_cons.mp hx with h | h
    · subst h; exact foldl_min_le_init t x
    · exact foldl_min_le_mem h a

lemma listMin_mem {l : List ℚ} {m : ℚ} (h : listMin l = some m) : m ∈ l := by
  cases l with
  | nil => cases h
  | cons a t =>
    have hm : t.foldl min a = m := by
      simpa [listMin] using h
    rcases foldl_min_mem t a with h' | h'
    · rw [← hm, h']; exact List.mem_cons_self a t
    · rw [← hm]; exact List.mem_cons_of_mem a h'

lemma listMin_congr {l1 l2 : List ℚ} (h : ∀ x, x ∈ l1 ↔ x ∈ l2) :
    listMin l1 = listMin l2 := by
  match h1 : listMin l1, h2 : listMin l2 with
  | none, none => rfl
  | none, some m2 =>
    have hm2 := listMin_mem h2
    have : m2 ∈ l1 := (h m2).mpr hm2
    obtain ⟨m, hm, -⟩ := listMin_le this
    rw [hm] at h1; cases h1
  | some m1, none =>
    have hm1 := listMin_mem h1
    have : m1 ∈ l2 := (h m1).mp hm1
    obtain ⟨m, hm, -⟩ := listMin_le this
    rw [hm] at h2; cases h2
  | some m1, some m2 =>
    have hm1 : m1 ∈ l2 := (h m1).mp (listMin_mem h1)
    have hm2 : m2 ∈ l1 := (h m2).mpr (listMin_mem h2)
    obtain ⟨a, ha, hle⟩ := listMin_le hm1
    obtain ⟨b, hb, hle'⟩ := listMin_le hm2
    rw [ha] at h2; injection h2 with h2'
    rw [hb] at h1; injection h1 with h1'
    subst h2'; subst h1'
    exact congrArg some (le_antisymm hle' hle)

/-- Modelled from the spec (§4.3 steps 3-5, rotation minimization off): the
minimum, over all isomorphism mappings between the two molecular graphs, of
the candidate radicand; `none` when no isomorphism exists. -/
def minIsoMSD (mol1 mol2 : Mol) : Option ℚ :=
  listMin ((isoMappings mol1.to_graph mol2.to_graph
    (nodeMatchRequired mol1.to_graph mol2.to_graph)).map (candMSD mol1 mol2))

/-- The spec's `symmetric_rmsd` value: square root of the minimal candidate
radicand. -/
noncomputable def minIsoRMSD (mol1 mol2 : Mol) : Option ℝ :=
  (minIsoMSD mol1 mol2).map (fun q => Real.sqrt ((q : ℚ) : ℝ))

lemma match_graphs_first_ok_iff (G1 G2 : Graph) (σ : List ℕ) :
    match_graphs_first G1 G2 = .ok σ ↔
      ∃ t, isoMappings G1 G2 (nodeMatchRequired G1 G2) = σ :: t := by
  unfold match_graphs_first
  cases isoMappings G1 G2 (nodeMatchRequired G1 G2) with
  | nil => simp
  | cons a t =>
    simp only [Except.ok.injEq, List.cons.injEq]
    constructor
    · rintro rfl; exact ⟨t, rfl, rfl⟩
    · rintro ⟨t', rfl, rfl⟩; rfl

/-- Claim C1 (amended form): with centering off, `rmsd_isomorphic` returns
the candidate RMSD of the single (first-delivered) isomorphism mapping —
an upper bound on, but not in general equal to, the minimum of the
candidate RMSD over all isomorphism mappings between the two graphs. -/
theorem rmsd_isomorphic_ge_min (mol1 mol2 : Mol) (q : ℚ) (s1 s2 : Mol)
    (h : rmsd_isomorphic_run mol1 mol2 false = .ok (q, s1, s2)) :
    ∃ m, minIsoMSD mol1 mol2 = some m ∧
      Real.sqrt ((m : ℚ) : ℝ) ≤ Real.sqrt ((q : ℚ) : ℝ) := by
  by_cases hc : mol1.atomicnums.length = mol2.atomicnums.length ∧
      mol1.coordinates.length = mol2.coordinates.length
  · rw [rmsd_isomorphic_run_nocenter mol1 mol2 hc.1 hc.2] at h
    cases heq : match_graphs_first mol1.to_graph mol2.to_graph with
    | error e => rw [heq] at h; simp at h
    | ok σ =>
      rw [heq] at h
      have hq : candMSD mol1 mol2 σ = q := by
        simp only [Except.ok.injEq, Prod.mk.injEq] at h
        exact h.1
      obtain ⟨t, hiso⟩ := (match_graphs_first_ok_iff _ _ _).mp heq
      have hσ : σ ∈ isoMappings mol1.to_graph mol2.to_graph
          (nodeMatchRequired mol1.to_graph mol2.to_graph) := by
        rw [hiso]; exact List.mem_cons_self σ t
      have hmem : candMSD mol1 mol2 σ ∈
          (isoMappings mol1.to_graph mol2.to_graph
            (nodeMatchRequired mol1.to_graph mol2.to_graph)).map
              (candMSD mol1 mol2) :=
        List.mem_map_of_mem _ hσ
      obtain ⟨m, hm, hle⟩ := listMin_le hmem
      refine ⟨m, hm, Real.sqrt_le_sqrt ?_⟩
      rw [← hq]
      exact_mod_cast hle
  · unfold rmsd_isomorphic_run at h
    rw [if_neg hc] at h
    simp at h

lemma isoMappings_molP1_molP2 :
    isoMappings molP1.to_graph molP2.to_graph
      (nodeMatchRequired molP1.to_graph molP2.to_graph) =
      [[0, 1, 2], [2, 1, 0]] := by
  decide

lemma isoMappings_molP1_molP1 :
    isoMappings molP1.to_graph molP1.to_graph
      (nodeMatchRequired molP1.to_graph molP1.to_graph) =
      [[0, 1, 2], [2, 1, 0]] := by
  decide

lemma range_to_graph_n_P1 : List.range molP1.to_graph.n = [0, 1, 2] := by
  decide

lemma candMSD_molP1_molP2_id : candMSD molP1 molP2 [0, 1, 2] = 8 / 3 := by
  unfold candMSD
  rw [range_to_graph_n_P1]
  norm_num [selectIdx, sumSqDev, distSq, zeroPt, molP1, molP2, Mol.natoms]

lemma candMSD_molP1_molP2_rev : candMSD molP1 molP2 [2, 1, 0] = 0 := by
  unfold candMSD
  rw [range_to_graph_n_P1]
  norm_num [selectIdx, sumSqDev, distSq, zeroPt, molP1, molP2, Mol.natoms]

lemma run_molP1_molP2_eq :
    rmsd_isomorphic_run molP1 molP2 false = .ok (8 / 3, molP1, molP2) := by
  rw [rmsd_isomorphic_run_nocenter molP1 molP2 rfl rfl]
  unfold match_graphs_first
  rw [isoMappings_molP1_molP2]
  show Except.ok (candMSD molP1 molP2 [0, 1, 2], molP1, molP2) = _
  rw [candMSD_molP1_molP2_id]

lemma minIsoMSD_molP1_molP2 : minIsoMSD molP1 molP2 = some 0 := by
  unfold minIsoMSD
  rw [isoMappings_molP1_molP2]
  show listMin [candMSD molP1 molP2 [0, 1, 2], candMSD molP1 molP2 [2, 1, 0]] =
    some 0
  rw [candMSD_molP1_molP2_id, candMSD_molP1_molP2_rev]
  show some (min (8 / 3 : ℚ) 0) = some 0
  norm_num

lemma sqrt_83_ne_sqrt_0 :
    Real.sqrt ((8 / 3 : ℚ) : ℝ) ≠ Real.sqrt ((0 : ℚ) : ℝ) := by
  have h2 : (0 : ℝ) < Real.sqrt ((8 / 3 : ℚ) : ℝ) :=
    Real.sqrt_pos.mpr (by norm_num)
  intro hcontra
  rw [hcontra] at h2
  norm_num at h2

/-- Witness for C1's amended theorem at the two concrete path molecules. -/
theorem rmsd_isomorphic_ge_min_witness :
    rmsd_isomorphic_run molP1 molP2 false = .ok (8 / 3, molP1, molP2) ∧
    ∃ m, minIsoMSD molP1 molP2 = some m ∧
      Real.sqrt ((m : ℚ) : ℝ) ≤ Real.sqrt (((8 / 3 : ℚ) : ℚ) : ℝ) :=
  ⟨run_molP1_molP2_eq,
    rmsd_isomorphic_ge_min molP1 molP2 (8 / 3) molP1 molP2 run_molP1_molP2_eq⟩

/-- Claim C1 (refuting evaluation): on the two path molecules the value of
`rmsd_isomorphic` is the first mapping's candidate `sqrt(8/3)`, while the
minimum over all (two) isomorphism mappings is `sqrt(0)`; the two differ,
so `rmsd_isomorphic` is not the minimum over all mappings. -/
theorem rmsd_isomorphic_not_min :
    valueOf (rmsd_isomorphic_run molP1 molP2 false) = some (8 / 3) ∧
    minIsoMSD molP1 molP2 = some 0 ∧
    Real.sqrt ((8 / 3 : ℚ) : ℝ) ≠ Real.sqrt ((0 : ℚ) : ℝ) :=
  ⟨by rw [run_molP1_molP2_eq]; rfl, minIsoMSD_molP1_molP2, sqrt_83_ne_sqrt_0⟩

/-- Relabel the atoms of a molecule by the permutation list `τ`: atom `i`
of the result is atom `τ[i]` of the input — coordinates, atomic numbers,
and the adjacency matrix (hence the graph vertices) are permuted together. -/
def relabelMol (τ : List ℕ) (mol : Mol) : Mol :=
  { atomicnums := τ.map (fun v => mol.atomicnums.getD v 0)
    coordinates := τ.map (fun v => mol.coordinates.getD v zeroPt)
    adjacency := τ.map (fun r => τ.map (fun c => matEntry mol.adjacency r c)) }

/-- `τ` is an automorphism of the labeled graph `G`: a permutation of the
vertices that preserves adjacency and the vertex labels. -/
def IsAutomorphism (G : Graph) (τ : List ℕ) : Prop :=
  τ.Perm (List.range G.n) ∧
  (∀ i < G.n, ∀ j < G.n, G.adj (τ.getD i 0) (τ.getD j 0) = G.adj i j) ∧
  (∀ i < G.n, labelOf G (τ.getD i 0) = labelOf G i)

instance (G : Graph) (τ : List ℕ) : Decidable (IsAutomorphism G τ) := by
  unfold IsAutomorphism; infer_instance

/-- Composition of permutation lists: `(compList τ σ)[i] = τ[σ[i]]`. -/
def compList (τ σ : List ℕ) : List ℕ := σ.map (fun v => τ.getD v 0)

/-- The inverse of a permutation list on `0 .. n-1`. -/
def invList (n : ℕ) (τ : List ℕ) : List ℕ :=
  (List.range n).map (fun v => τ.indexOf v)

lemma getD_map_of_lt {α β : Type} (f : α → β) (l : List α) (d : β) (d' : α)
    {i : ℕ} (hi : i < l.length) :
    (l.map f).getD i d = f (l.getD i d') := by
  rw [List.getD_eq_getElem _ _ (by simpa using hi),
    List.getD_eq_getElem _ _ hi]
  simp

lemma getD_range {n i : ℕ} (h : i < n) : (List.range n).getD i 0 = i := by
  rw [List.getD_eq_getElem _ _ (by simpa using h)]
  simp

lemma map_getD_range {α : Type} (l : List α) (d : α) {n : ℕ}
    (h : l.length = n) :
    (List.range n).map (fun i => l.getD i d) = l := by
  apply List.ext_getElem
  · simp [h]
  · intro i h1 h2
    simp only [List.getElem_map, List.getElem_range]
    rw [List.getD_eq_getElem _ _ h2]

lemma compList_getD (τ σ : List ℕ) {i : ℕ} (hi : i < σ.length) :
    (compList τ σ).getD i 0 = τ.getD (σ.getD i 0) 0 := by
  unfold compList
  exact getD_map_of_lt _ _ _ 0 hi

lemma compList_length (τ σ : List ℕ) : (compList τ σ).length = σ.length := by
  simp [compList]

lemma compList_perm {n : ℕ} {τ σ : List ℕ} (hτ : τ.Perm (List.range n))
    (hσ : σ.Perm (List.range n)) : (compList τ σ).Perm (List.range n) := by
  have h1 : (compList τ σ).Perm ((List.range n).map (fun v => τ.getD v 0)) :=
    hσ.map _
  rw [map_getD_range τ 0 (perm_range_length hτ)] at h1
  exact h1.trans hτ

lemma getD_invList {n : ℕ} {τ : List ℕ} (hτ : τ.Perm (List.range n))
    {v : ℕ} (hv : v < n) : τ.getD ((invList n τ).getD v 0) 0 = v := by
  have hmem : v ∈ τ := hτ.mem_iff.mpr (List.mem_range.mpr hv)
  have hidx : τ.indexOf v < τ.length := List.indexOf_lt_length.mpr hmem
  unfold invList
  rw [getD_map_of_lt (fun v => τ.indexOf v) _ 0 0 (by simpa using hv),
    getD_range hv, List.getD_eq_getElem _ _ hidx]
  exact List.getElem_indexOf hidx

lemma invList_perm {n : ℕ} {τ : List ℕ} (hτ : τ.Perm (List.range n)) :
    (invList n τ).Perm (List.range n) := by
  have hlen : τ.length = n := perm_range_length hτ
  apply map_range_perm
  · intro v hv
    have hmem : v ∈ τ := hτ.mem_iff.mpr (List.mem_range.mpr hv)
    have := List.indexOf_lt_length.mpr hmem
    omega
  · intro v hv w hw heq
    have hmv : v ∈ τ := hτ.mem_iff.mpr (List.mem_range.mpr hv)
    have hmw : w ∈ τ := hτ.mem_iff.mpr (List.mem_range.mpr hw)
    have h1 := List.getElem_indexOf (List.indexOf_lt_length.mpr hmv)
    have h2 := List.getElem_indexOf (List.indexOf_lt_length.mpr hmw)
    rw [← h1, ← h2]
    congr 1

lemma compList_invList {n : ℕ} {τ σ : List ℕ} (hτ : τ.Perm (List.range n))
    (hσ : σ.Perm (List.range n)) :
    compList τ (compList (invList n τ) σ) = σ := by
  have hlen : σ.length = n := perm_range_length hσ
  apply List.ext_getElem
  · simp [compList_length, hlen]
  · intro i h1 h2
    rw [← List.getD_eq_getElem (compList τ (compList (invList n τ) σ)) 0 h1,
      ← List.getD_eq_getElem σ 0 h2]
    have hi : i < σ.length := h2
    rw [compList_getD _ _ (by rw [compList_length]; exact hi),
      compList_getD _ _ hi]
    exact getD_invList hτ (perm_range_getD_lt hσ (by omega))

lemma relabel_to_graph_n (τ : List ℕ) (mol : Mol) :
    (relabelMol τ mol).to_graph.n = τ.length := by
  simp [relabelMol, Mol.to_graph, graph_from_adjacency_matrix]

lemma relabel_to_graph_adj (τ : List ℕ) (mol : Mol) {i j : ℕ}
    (hi : i < τ.length) (hj : j < τ.length) :
    (relabelMol τ mol).to_graph.adj i j =
      mol.to_graph.adj (τ.getD i 0) (τ.getD j 0) := by
  show (matEntry (relabelMol τ mol).adjacency i j != 0) =
    (matEntry mol.adjacency (τ.getD i 0) (τ.getD j 0) != 0)
  congr 1
  have h1 : (relabelMol τ mol).adjacency.getD i [] =
      τ.map (fun c => matEntry mol.adjacency (τ.getD i 0) c) := by
    show ((τ.map (fun r => τ.map (fun c => matEntry mol.adjacency r c))).getD
      i []) = _
    rw [getD_map_of_lt (fun r => τ.map (fun c => matEntry mol.adjacency r c))
      τ [] 0 hi]
  calc matEntry (relabelMol τ mol).adjacency i j
      = ((relabelMol τ mol).adjacency.getD i []).getD j 0 := rfl
    _ = (τ.map (fun c => matEntry mol.adjacency (τ.getD i 0) c)).getD j 0 := by
        rw [h1]
    _ = matEntry mol.adjacency (τ.getD i 0) (τ.getD j 0) :=
        getD_map_of_lt _ _ _ 0 hj

lemma relabel_to_graph_label (τ : List ℕ) (mol : Mol) {i : ℕ}
    (hτ : τ.Perm (List.range mol.adjacency.length))
    (hw : mol.atomicnums.length = mol.adjacency.length)
    (hi : i < τ.length) :
    labelOf (relabelMol τ mol).to_graph i =
      labelOf mol.to_graph (τ.getD i 0) := by
  have hlen : τ.length = mol.adjacency.length := perm_range_length hτ
  have hA' : (relabelMol τ mol).adjacency.length = τ.length := by
    simp [relabelMol]
  have hn' : (relabelMol τ mol).atomicnums.length = τ.length := by
    simp [relabelMol]
  have hv : τ.getD i 0 < mol.adjacency.length :=
    perm_range_getD_lt hτ (by omega)
  show labelOf (graph_from_adjacency_matrix (relabelMol τ mol).adjacency
    (some (relabelMol τ mol).atomicnums)) i = _
  rw [labelOf_gfam, if_pos ⟨by omega, by omega⟩]
  show _ = labelOf (graph_from_adjacency_matrix mol.adjacency
    (some mol.atomicnums)) (τ.getD i 0)
  rw [labelOf_gfam, if_pos ⟨hv, by omega⟩]
  congr 1
  show (τ.map (fun v => mol.atomicnums.getD v 0)).getD i 0 = _
  exact getD_map_of_lt _ _ _ 0 hi

lemma gfam_atomicnum_eq (A : List (List ℤ)) (nums : List ℤ) :
    (graph_from_adjacency_matrix A (some nums)).atomicnum =
      List.enumFrom 0 (nums.take A.length) := by
  show (List.enumFrom 0 nums).filter (fun p => decide (p.1 < A.length)) = _
  rw [filter_enumFrom_lt nums 0 A.length]
  norm_num

lemma enumFrom_eq_nil {α : Type} {k : ℕ} {l : List α} :
    (List.enumFrom k l = []) ↔ l = [] := by
  cases l <;> simp [List.enumFrom]

lemma gfam_atomicnum_empty_iff (A : List (List ℤ)) (nums : List ℤ) :
    ((graph_from_adjacency_matrix A (some nums)).atomicnum = []) ↔
      (A.length = 0 ∨ nums = []) := by
  rw [gfam_atomicnum_eq, enumFrom_eq_nil, List.take_eq_nil_iff]

lemma relabel_nodeMatch (G1 : Graph) (τ : List ℕ) (mol : Mol)
    (hτ : τ.Perm (List.range mol.adjacency.length))
    (hw : mol.atomicnums.length = mol.adjacency.length) :
    nodeMatchRequired G1 (relabelMol τ mol).to_graph =
      nodeMatchRequired G1 mol.to_graph := by
  have hlen : τ.length = mol.adjacency.length := perm_range_length hτ
  unfold nodeMatchRequired
  congr 1
  congr 1
  rw [Bool.eq_iff_iff, List.isEmpty_iff, List.isEmpty_iff]
  show (graph_from_adjacency_matrix (relabelMol τ mol).adjacency
      (some (relabelMol τ mol).atomicnums)).atomicnum = [] ↔
    (graph_from_adjacency_matrix mol.adjacency
      (some mol.atomicnums)).atomicnum = []
  rw [gfam_atomicnum_empty_iff, gfam_atomicnum_empty_iff]
  have hA' : (relabelMol τ mol).adjacency.length = τ.length := by
    simp [relabelMol]
  constructor
  · rintro (h | h)
    · left; omega
    · have h0 : τ.length = 0 := by
        have := congrArg List.length h
        simpa [relabelMol] using this
      left; omega
  · rintro (h | h)
    · left; omega
    · have h0 : mol.atomicnums.length = 0 := by rw [h]; rfl
      left; omega

lemma candMSD_relabel (mol1 mol2 : Mol) (τ σ' : List ℕ)
    (hσ' : ∀ v ∈ σ', v < τ.length) :
    candMSD mol1 (relabelMol τ mol2) σ' =
      candMSD mol1 mol2 (compList τ σ') := by
  unfold candMSD
  have e : selectIdx σ' (relabelMol τ mol2).coordinates =
      selectIdx (compList τ σ') mol2.coordinates := by
    show σ'.map (fun v =>
        ((τ.map (fun u => mol2.coordinates.getD u zeroPt))).getD v zeroPt) =
      (σ'.map (fun v => τ.getD v 0)).map
        (fun v => mol2.coordinates.getD v zeroPt)
    rw [List.map_map]
    apply List.map_congr_left
    intro v hv
    exact getD_map_of_lt _ _ _ 0 (hσ' v hv)
  rw [e]

/-- Claim C6 (amended form): relabeling the second molecule's atoms
(coordinates, atomic numbers, and graph vertices together) by an
automorphism of its own graph leaves the MINIMUM candidate RMSD over all
isomorphism mappings — the spec's symmetry-corrected value — unchanged.
The single-mapping value actually returned by `rmsd_isomorphic` can change
(see the refuting evaluation). -/
theorem minIsoRMSD_relabel_invariant (mol1 mol2 : Mol) (τ : List ℕ)
    (hτ : IsAutomorphism mol2.to_graph τ)
    (hw2 : mol2.atomicnums.length = mol2.adjacency.length) :
    minIsoRMSD mol1 (relabelMol τ mol2) = minIsoRMSD mol1 mol2 := by
  obtain ⟨hτp, hτadj, hτlab⟩ := hτ
  have hτp' : τ.Perm (List.range mol2.adjacency.length) := hτp
  have hτlen : τ.length = mol2.adjacency.length := perm_range_length hτp'
  unfold minIsoRMSD
  congr 1
  unfold minIsoMSD
  rw [relabel_nodeMatch mol1.to_graph τ mol2 hτp' hw2]
  apply listMin_congr
  intro x
  have hG2'n : (relabelMol τ mol2).to_graph.n = τ.length :=
    relabel_to_graph_n τ mol2
  constructor
  · intro hx
    obtain ⟨σ', hσ'mem, rfl⟩ := List.mem_map.mp hx
    obtain ⟨hn, hperm, hok⟩ := mem_isoMappings.mp hσ'mem
    have hn1τ : mol1.to_graph.n = τ.length := by rw [hn, hG2'n]
    have hn12 : mol1.to_graph.n = mol2.to_graph.n := by
      show _ = mol2.adjacency.length
      omega
    have hσ'len : σ'.length = mol1.to_graph.n := perm_range_length hperm
    have hσ'lt : ∀ v ∈ σ', v < τ.length := by
      intro v hv
      have := List.mem_range.mp (hperm.mem_iff.mp hv)
      omega
    refine List.mem_map.mpr ⟨compList τ σ', mem_isoMappings.mpr
      ⟨hn12, ?_, ?_, ?_⟩, ?_⟩
    · have hττ : τ.Perm (List.range mol1.to_graph.n) := by
        rw [hn12]; exact hτp
      exact compList_perm hττ hperm
    · intro i hi j hj
      have hσi : σ'.getD i 0 < mol1.to_graph.n := perm_range_getD_lt hperm hi
      have hσj : σ'.getD j 0 < mol1.to_graph.n := perm_range_getD_lt hperm hj
      rw [compList_getD τ σ' (by omega), compList_getD τ σ' (by omega)]
      have e1 := hok.1 i hi j hj
      rw [relabel_to_graph_adj τ mol2 (by omega) (by omega)] at e1
      exact e1
    · intro hu i hi
      have hσi : σ'.getD i 0 < mol1.to_graph.n := perm_range_getD_lt hperm hi
      rw [compList_getD τ σ' (by omega)]
      have e1 := hok.2 hu i hi
      rw [relabel_to_graph_label τ mol2 hτp' hw2 (by omega)] at e1
      exact e1
    · exact (candMSD_relabel mol1 mol2 τ σ' hσ'lt).symm
  · intro hx
    obtain ⟨σ, hσmem, rfl⟩ := List.mem_map.mp hx
    obtain ⟨hn, hperm, hok⟩ := mem_isoMappings.mp hσmem
    have hn2 : mol1.to_graph.n = mol2.adjacency.length := hn
    have hpermσ : σ.Perm (List.range mol2.adjacency.length) := by
      rw [← hn2]; exact hperm
    have hσ'perm0 : (compList (invList mol2.adjacency.length τ) σ).Perm
        (List.range mol2.adjacency.length) :=
      compList_perm (invList_perm hτp') hpermσ
    have hcomp : compList τ (compList (invList mol2.adjacency.length τ) σ) =
        σ := compList_invList hτp' hpermσ
    have hperm' : (compList (invList mol2.adjacency.length τ) σ).Perm
        (List.range mol1.to_graph.n) := by
      rw [hn2]; exact hσ'perm0
    have hσ'len : (compList (invList mol2.adjacency.length τ) σ).length =
        mol1.to_graph.n := perm_range_length hperm'
    have hσ'lt : ∀ v ∈ compList (invList mol2.adjacency.length τ) σ,
        v < τ.length := by
      intro v hv
      have := List.mem_range.mp (hperm'.mem_iff.mp hv)
      omega
    have hτgetD : ∀ i < (compList (invList mol2.adjacency.length τ) σ).length,
        τ.getD ((compList (invList mol2.adjacency.length τ) σ).getD i 0) 0 =
          σ.getD i 0 := by
      intro i hi
      rw [← compList_getD τ _ hi, hcomp]
    refine List.mem_map.mpr ⟨compList (invList mol2.adjacency.length τ) σ,
      mem_isoMappings.mpr ⟨?_, hperm', ?_, ?_⟩, ?_⟩
    · rw [hG2'n]; omega
    · intro i hi j hj
      have hσi : (compList (invList mol2.adjacency.length τ) σ).getD i 0 <
          mol1.to_graph.n := perm_range_getD_lt hperm' hi
      have hσj : (compList (invList mol2.adjacency.length τ) σ).getD j 0 <
          mol1.to_graph.n := perm_range_getD_lt hperm' hj
      rw [relabel_to_graph_adj τ mol2 (by omega) (by omega),
        hτgetD i (by omega), hτgetD j (by omega)]
      exact hok.1 i hi j hj
    · intro hu i hi
      have hσi : (compList (invList mol2.adjacency.length τ) σ).getD i 0 <
          mol1.to_graph.n := perm_range_getD_lt hperm' hi
      rw [relabel_to_graph_label τ mol2 hτp' hw2 (by omega),
        hτgetD i (by omega)]
      exact hok.2 hu i hi
    · rw [candMSD_relabel mol1 mol2 τ _ hσ'lt, hcomp]

/-- Witness for C6's amended theorem: the reversal `[2,1,0]` is an
automorphism of the path molecule's graph, and the minimal candidate value
is unchanged by relabeling with it. -/
theorem minIsoRMSD_relabel_invariant_witness :
    (IsAutomorphism molP2.to_graph [2, 1, 0] ∧
      molP2.atomicnums.length = molP2.adjacency.length) ∧
    minIsoRMSD molP1 (relabelMol [2, 1, 0] molP2) = minIsoRMSD molP1 molP2 :=
  ⟨⟨by decide, by decide⟩,
    minIsoRMSD_relabel_invariant molP1 molP2 [2, 1, 0] (by decide) (by decide)⟩

lemma relabel_rev_molP2 : relabelMol [2, 1, 0] molP2 = molP1 := by rfl

lemma candMSD_molP1_molP1_id : candMSD molP1 molP1 [0, 1, 2] = 0 := by
  unfold candMSD
  rw [range_to_graph_n_P1]
  norm_num [selectIdx, sumSqDev, distSq, zeroPt, molP1, Mol.natoms]

lemma run_molP1_molP1_eq :
    rmsd_isomorphic_run molP1 molP1 false = .ok (0, molP1, molP1) := by
  rw [rmsd_isomorphic_run_nocenter molP1 molP1 rfl rfl]
  unfold match_graphs_first
  rw [isoMappings_molP1_molP1]
  show Except.ok (candMSD molP1 molP1 [0, 1, 2], molP1, molP1) = _
  rw [candMSD_molP1_molP1_id]

/-- Claim C6 (refuting evaluation): `[2,1,0]` is an automorphism of the
path molecule's graph, yet relabeling `molP2` by it changes the value
returned by `rmsd_isomorphic` from `sqrt(8/3)` to `sqrt(0)` — the returned
value is not invariant under automorphic relabeling of the second
molecule. -/
theorem rmsd_isomorphic_relabel_changes :
    IsAutomorphism molP2.to_graph [2, 1, 0] ∧
    valueOf (rmsd_isomorphic_run molP1 molP2 false) = some (8 / 3) ∧
    valueOf (rmsd_isomorphic_run molP1 (relabelMol [2, 1, 0] molP2) false) =
      some 0 ∧
    Real.sqrt ((8 / 3 : ℚ) : ℝ) ≠ Real.sqrt ((0 : ℚ) : ℝ) :=
  ⟨by decide,
    by rw [run_molP1_molP2_eq]; rfl,
    by rw [relabel_rev_molP2, run_molP1_molP1_eq]; rfl,
    sqrt_83_ne_sqrt_0⟩

/-- `rmsd_qcp` of `pyrmsd/rmsd.py`, parameterized by the QCP kernel (the
`qcp` module is not under `src/`): both coordinate sets are centered with
binary subtraction (`c1 = mol1.coordinates - mol1.center_of_geometry()`),
which builds fresh arrays — unlike the `-=` of the other three operations,
so the caller's molecules come back untouched. -/
def rmsd_qcp (qcpKernel : List Point → List Point → ℝ) (mol1 mol2 : Mol) :
    Except Err (ℝ × Mol × Mol) :=
  if mol1.atomicnums = mol2.atomicnums then
    .ok (qcpKernel (translateBy mol1.coordinates (center_of_geometry mol1))
      (translateBy mol2.coordinates (center_of_geometry mol2)), mol1, mol2)
  else
    .error .assertionError

/-- Coordinates of the atoms of one atomic-number class (spec §4.4:
partition atom indices by atomic number). -/
def classCoords (z : ℤ) (labels : List ℤ) (c : List Point) : List Point :=
  ((List.zip labels c).filter (fun p => p.1 == z)).map (fun p => p.2)

/-- Minimal total squared deviation of a perfect matching between two
same-size point classes, by enumeration of all assignments (spec §4.4: the
per-class linear assignment problem; costs here are the squared distances
that add up to the final dummy-formula radicand). -/
def classCost (xs ys : List Point) : ℚ :=
  match listMin ((ys.permutations').map (fun ys' => sumSqDev xs ys')) with
  | some m => m
  | none => 0

/-- `pyrmsd.hungarian.hungarian_rmsd` — Modelled from the spec: that module
is not under `src/`. Per §4.4 the atom count of every atomic-number class
must match exactly between the two structures, else the call fails with
`LabelCountMismatch`; otherwise a minimum-cost assignment is solved
independently per class and the returned radicand is the dummy formula
over the matched pairs. -/
def hungarian_rmsd (c1 c2 : List Point) (l1 l2 : List ℤ) : Except Err ℚ :=
  if ∀ z ∈ l1 ++ l2, l1.count z = l2.count z then
    .ok ((((l1.dedup).map
      (fun z => classCost (classCoords z l1 c1) (classCoords z l2 c2))).sum) /
      (l1.length : ℚ))
  else
    .error .labelCountMismatch

/-- `rmsd_hungarian` of `pyrmsd/rmsd.py`, radicand form: shape asserts,
optional in-place centering, then the per-class assignment RMSD. -/
def rmsd_hungarian_run (mol1 mol2 : Mol) (center : Bool) :
    Except Err (ℚ × Mol × Mol) :=
  if mol1.atomicnums.length = mol2.atomicnums.length ∧
      mol1.coordinates.length = mol2.coordinates.length then
    match hungarian_rmsd
        (if center then translateBy mol1.coordinates (center_of_geometry mol1)
          else mol1.coordinates)
        (if center then translateBy mol2.coordinates (center_of_geometry mol2)
          else mol2.coordinates)
        mol1.atomicnums mol2.atomicnums with
    | .error e => .error e
    | .ok q => .ok (q,
        { mol1 with coordinates :=
            if center then translateBy mol1.coordinates (center_of_geometry mol1)
            else mol1.coordinates },
        { mol2 with coordinates :=
            if center then translateBy mol2.coordinates (center_of_geometry mol2)
            else mol2.coordinates })
  else
    .error .assertionError

/-- Claim C8 (amended form): whenever some atomic number has different
populations in the two structures, `rmsd_hungarian` fails — it never
returns a number computed from a partial matching; when the two shape
asserts pass (equal atom counts and equal coordinate counts), the failure
is `LabelCountMismatch`. With differing shapes the `assert` fires first
(the spec's `ShapeMismatch`), so the error kind differs there. -/
theorem rmsd_hungarian_mismatch (mol1 mol2 : Mol) (center : Bool) (z : ℤ)
    (hz : mol1.atomicnums.count z ≠ mol2.atomicnums.count z) :
    (∀ r, rmsd_hungarian_run mol1 mol2 center ≠ .ok r) ∧
    (mol1.atomicnums.length = mol2.atomicnums.length →
      mol1.coordinates.length = mol2.coordinates.length →
      rmsd_hungarian_run mol1 mol2 center = .error .labelCountMismatch) := by
  have hcond : ¬ (∀ z' ∈ mol1.atomicnums ++ mol2.atomicnums,
      mol1.atomicnums.count z' = mol2.atomicnums.count z') := by
    intro hall
    by_cases hm : z ∈ mol1.atomicnums ++ mol2.atomicnums
    · exact hz (hall z hm)
    · have h1 : z ∉ mol1.atomicnums :=
        fun h => hm (List.mem_append.mpr (Or.inl h))
      have h2 : z ∉ mol2.atomicnums :=
        fun h => hm (List.mem_append.mpr (Or.inr h))
      exact hz (by rw [List.count_eq_zero.mpr h1, List.count_eq_zero.mpr h2])
  have hh : ∀ c1 c2, hungarian_rmsd c1 c2 mol1.atomicnums mol2.atomicnums =
      .error .labelCountMismatch := by
    intro c1 c2
    unfold hungarian_rmsd
    rw [if_neg hcond]
  constructor
  · intro r hr
    unfold rmsd_hungarian_run at hr
    by_cases hc : mol1.atomicnums.length = mol2.atomicnums.length ∧
        mol1.coordinates.length = mol2.coordinates.length
    · rw [if_pos hc, hh] at hr
      simp at hr
    · rw [if_neg hc] at hr
      simp at hr
  · intro hA hS
    unfold rmsd_hungarian_run
    rw [if_pos ⟨hA, hS⟩, hh]

/-- Two-atom molecules with equal shapes but different per-atomic-number
populations (`[6, 8]` versus `[6, 6]`). -/
def molH1 : Mol :=
  ⟨[6, 8], [((0 : ℚ), (0 : ℚ), (0 : ℚ)), ((1 : ℚ), (0 : ℚ), (0 : ℚ))],
   [[0, 0], [0, 0]]⟩

/-- See `molH1`. -/
def molH2 : Mol :=
  ⟨[6, 6], [((0 : ℚ), (0 : ℚ), (0 : ℚ)), ((1 : ℚ), (0 : ℚ), (0 : ℚ))],
   [[0, 0], [0, 0]]⟩

/-- A one-atom molecule, shape-incompatible with `molH2`. -/
def molH3 : Mol := ⟨[6], [((0 : ℚ), (0 : ℚ), (0 : ℚ))], [[0]]⟩

/-- Witness for C8's amended theorem: equal shapes, mismatched populations
of atomic number 8 — the call fails with `LabelCountMismatch`. -/
theorem rmsd_hungarian_mismatch_witness :
    molH1.atomicnums.count 8 ≠ molH2.atomicnums.count 8 ∧
    ((∀ r, rmsd_hungarian_run molH1 molH2 false ≠ .ok r) ∧
    (molH1.atomicnums.length = molH2.atomicnums.length →
      molH1.coordinates.length = molH2.coordinates.length →
      rmsd_hungarian_run molH1 molH2 false = .error .labelCountMismatch)) :=
  ⟨by decide, rmsd_hungarian_mismatch molH1 molH2 false 8 (by decide)⟩

/-- Claim C8 (refuting evaluation): `[6]` versus `[6, 6]` — the population
of atomic number 6 differs, but the comparison fails with the shape
`assert` (`AssertionError`), not with `LabelCountMismatch`, because the
shape check precedes the per-class population check. -/
theorem rmsd_hungarian_shape_assert :
    molH3.atomicnums.count 6 ≠ molH2.atomicnums.count 6 ∧
    errOf (rmsd_hungarian_run molH3 molH2 false) = some .assertionError ∧
    Err.assertionError ≠ Err.labelCountMismatch := by
  decide

/-- Final state of one batch job (spec §4.5 state machine):
`Completed(value)`, `TimedOut`, or `Failed`. -/
inductive JobOutcome where
  | completed (v : ℝ)
  | timedOut
  | failed

/-- The result slot recorded for one outcome: only `Completed` carries a
number; `TimedOut` and `Failed` surface as the "unavailable" sentinel
(`np.nan`, observed by callers via `isnan`), modelled as `none` — a value
distinct from `0` and from every numeric RMSD. -/
def slotOfOutcome (o : JobOutcome) : Option ℝ :=
  match o with
  | .completed v => some v
  | .timedOut => none
  | .failed => none

/-- The default molecule used for out-of-range list reads. -/
def emptyMol : Mol := ⟨[], [], []⟩

/-- `spyrmsd.parallel.prmsdwrapper` — Modelled from the spec: the module is
not under `src/` (only its tests are). Per §4.5 and §5, each (reference,
target) pair's computation — abstracted here as the outcome oracle `run`,
whose result already accounts for the per-pair timeout — fills exactly the
result slot at the pair's input position: one result per target, in input
order, sentinel on timeout or failure, and the batch function is total. -/
def prmsdwrapper (run : Mol → Mol → JobOutcome) (ref : Mol)
    (targets : List Mol) : List (Option ℝ) :=
  targets.map (fun t => slotOfOutcome (run ref t))

/-- Claim C3: a pair whose computation times out yields the sentinel in its
own result slot — a value distinct from `some 0` and from every numeric
result — while the batch call still returns a full result list (the
timeout is recovered into the sentinel, never propagated as a crash: the
batch function is total and its result type carries no error case). -/
theorem prmsdwrapper_timeout_sentinel (run : Mol → Mol → JobOutcome)
    (ref : Mol) (targets : List Mol) (i : ℕ) (hi : i < targets.length)
    (ht : run ref (targets.getD i emptyMol) = .timedOut) :
    (prmsdwrapper run ref targets).getD i (some 0) = none ∧
    (∀ v : ℝ, (none : Option ℝ) ≠ some v) ∧
    (prmsdwrapper run ref targets).length = targets.length := by
  refine ⟨?_, fun v h => Option.noConfusion h, by simp [prmsdwrapper]⟩
  unfold prmsdwrapper
  rw [getD_map_of_lt (fun t => slotOfOutcome (run ref t)) targets (some 0)
    emptyMol hi, ht]
  rfl

/-- Witness for C3: a one-element batch whose only pair times out. -/
theorem prmsdwrapper_timeout_sentinel_witness :
    ((0 : ℕ) < [molC].length ∧
      (fun (_ : Mol) (_ : Mol) => JobOutcome.timedOut) molC
        ([molC].getD 0 emptyMol) = .timedOut) ∧
    ((prmsdwrapper (fun _ _ => .timedOut) molC [molC]).getD 0 (some 0) =
        none ∧
      (∀ v : ℝ, (none : Option ℝ) ≠ some v) ∧
      (prmsdwrapper (fun _ _ => .timedOut) molC [molC]).length =
        [molC].length) :=
  ⟨⟨by decide, rfl⟩,
    prmsdwrapper_timeout_sentinel (fun _ _ => .timedOut) molC [molC] 0
      (by decide) rfl⟩

/-- Claim C4: the batch returns exactly one result per target, and the slot
at position `i` is determined by target `i` alone — the output order
matches the input target order, regardless of which pairs complete, fail,
or time out. -/
theorem prmsdwrapper_order (run : Mol → Mol → JobOutcome) (ref : Mol)
    (targets : List Mol) :
    (prmsdwrapper run ref targets).length = targets.length ∧
    ∀ i, i < targets.length →
      (prmsdwrapper run ref targets).getD i none =
        slotOfOutcome (run ref (targets.getD i emptyMol)) := by
  refine ⟨by simp [prmsdwrapper], fun i hi => ?_⟩
  unfold prmsdwrapper
  exact getD_map_of_lt _ _ _ emptyMol hi

/-- Witness for C4: a two-element batch, one completed pair and one timed
out, keeping both length and order. -/
theorem prmsdwrapper_order_witness :
    ((prmsdwrapper (fun _ t => if t.natoms = 1 then .completed 1 else
        .timedOut) molC [molC, emptyMol]).length = [molC, emptyMol].length) ∧
    ((0 : ℕ) < [molC, emptyMol].length ∧
      (prmsdwrapper (fun _ t => if t.natoms = 1 then .completed 1 else
          .timedOut) molC [molC, emptyMol]).getD 0 none =
        slotOfOutcome ((fun (_ : Mol) (t : Mol) =>
          if t.natoms = 1 then JobOutcome.completed 1 else .timedOut) molC
            ([molC, emptyMol].getD 0 emptyMol))) :=
  ⟨(prmsdwrapper_order _ molC [molC, emptyMol]).1,
    by decide,
    (prmsdwrapper_order _ molC [molC, emptyMol]).2 0 (by decide)⟩
